import Mathlib

/-!
Shallow embedding of the data-transformation core of the ECS272-Fall2024
visualization components: categorical bucketing (`categorizeAge`,
`assignIncomeToRange`), the `d3.csv` row-callback loaders, the two-level
grouping aggregation built with `d3.rollup`, and the Sankey flow-graph
builder of `ParallelCoordinatesPlot` / `SankeyPlot`.

Modelling conventions:
* JavaScript numbers that may be `NaN` are modelled as `Option ℚ`
  (`none` = `NaN`, i.e. a missing cell or a failed `+string` parse);
  finite numeric values are `ℚ`.
* JavaScript `Map` / `Set` are modelled as association lists / duplicate-free
  lists in insertion order, which is the iteration order JavaScript guarantees.
-/

/-- A raw CSV row as seen by the `d3.csv` row callbacks: numeric columns are
given as parse results (`none` models a missing cell or a failed parse, i.e.
JavaScript `NaN`), string columns as plain strings (a missing cell is `""`,
matching JavaScript falsiness of `undefined` and of the empty string). -/
structure RawRow where
  age : Option ℚ
  income : Option ℚ
  creditScore : Option ℚ
  debtToIncomeRatio : Option ℚ
  riskRating : String
  educationLevel : String
  paymentHistory : String
deriving DecidableEq

/-- JavaScript division `a / b` as used in the mean computations: `none`
models the non-finite results (`NaN` or signed infinity) produced exactly
when the denominator is zero. -/
def jsDiv (a b : ℚ) : Option ℚ := if b = 0 then none else some (a / b)

/-- Deduplication keeping the first occurrence of each key, the key order of
a JavaScript `Map` built by a single pass (`seen` accumulates keys already
emitted). -/
def firstDedupAux (seen : List String) : List String → List String
  | [] => []
  | a :: l => if a ∈ seen then firstDedupAux seen l else a :: firstDedupAux (a :: seen) l

def firstDedup (l : List String) : List String := firstDedupAux [] l

/-- The cell produced by the `d3.rollup` reducer
`v => ({ totalIncome: d3.sum(v, d => d.Income), count: v.length })`. -/
structure AggCell where
  totalIncome : ℚ
  count : ℕ
deriving DecidableEq

/-- Keys of `rows.map k` in first-seen order. -/
def keysInOrder {R : Type} (k : R → String) (rows : List R) : List String :=
  firstDedup (rows.map k)

/-- Shallow embedding of the two-level
`d3.rollup(rows, v => ({totalIncome: d3.sum(v, m), count: v.length}), k1, k2)`:
group rows by `k1` (outer keys in first-seen order), within each group by
`k2`, and reduce each leaf group to its measure sum and its length. -/
def rollup2 {R : Type} (rows : List R) (k1 k2 : R → String) (m : R → ℚ) :
    List (String × List (String × AggCell)) :=
  (keysInOrder k1 rows).map (fun a =>
    (a, (keysInOrder k2 (rows.filter (fun r => k1 r = a))).map (fun b =>
      (b, { totalIncome :=
              (((rows.filter (fun r => k1 r = a)).filter (fun r => k2 r = b)).map m).sum,
            count := ((rows.filter (fun r => k1 r = a)).filter (fun r => k2 r = b)).length }))))

/-- JavaScript `Map.get` on an association list. -/
def lookup1 {α : Type} (l : List (String × α)) (a : String) : Option α :=
  (l.find? (fun e => e.1 = a)).map (fun e => e.2)

/-- Two-level lookup into the nested map produced by `d3.rollup`. -/
def lookup2 {α : Type} (l : List (String × List (String × α))) (a b : String) : Option α :=
  (lookup1 l a).bind (fun inner => lookup1 inner b)

/-- Sum of `cell.totalIncome` over every cell of a two-level aggregate. -/
def totalSum (agg : List (String × List (String × AggCell))) : ℚ :=
  (agg.map (fun e => (e.2.map (fun i => i.2.totalIncome)).sum)).sum

/-- Sum of `cell.count` over every cell of a two-level aggregate. -/
def totalCount (agg : List (String × List (String × AggCell))) : ℕ :=
  (agg.map (fun e => (e.2.map (fun i => i.2.count)).sum)).sum

namespace BarChart

/-- `categorizeAge` from `BarChartOverview` (`src/unnamed/part_000`). -/
def categorizeAge (age : ℚ) : String :=
  if 18 ≤ age ∧ age ≤ 27 then "18-27"
  else if 28 ≤ age ∧ age ≤ 37 then "28-37"
  else if 38 ≤ age ∧ age ≤ 47 then "38-47"
  else if 48 ≤ age ∧ age ≤ 57 then "48-57"
  else if 58 ≤ age ∧ age ≤ 69 then "58-69"
  else "Unknown"

/-- The `DataType` interface of `BarChartOverview`: the bucketed age group,
the income (`NaN`-able, see `RawRow`), and the risk rating string. -/
structure DataType where
  Age : String
  Income : Option ℚ
  RiskRating : String
deriving DecidableEq

/-- The `d3.csv` row callback of `BarChartOverview`: it performs no
validation and never drops a row. `+d.Age` failing to parse gives `NaN`,
every range comparison on `NaN` is false, so the age is bucketed to
"Unknown"; an unparseable income is kept as `NaN` (`none`). -/
def load (d : RawRow) : DataType :=
  { Age := match d.age with
      | some a => categorizeAge a
      | none => "Unknown"
    Income := d.income
    RiskRating := d.riskRating }

/-- `loadedData` as delivered to `setData`: every raw row, loaded. -/
def loadedData (raws : List RawRow) : List DataType := raws.map load

def riskCategories : List String := ["Low", "Medium", "High"]

/-- `aggregatedData = d3.rollup(data, v => ({totalIncome, count}), d => d.Age,
d => d.RiskRating)`. `d3.sum` skips `NaN` values, which gives the same sum as
counting a `NaN` income as `0`; `count = v.length` counts every row. -/
def aggregatedData (rows : List DataType) : List (String × List (String × AggCell)) :=
  rollup2 rows (fun d => d.Age) (fun d => d.RiskRating) (fun d => d.Income.getD 0)

/-- `stackedData`: one row per outer key of the aggregate; for each risk
category the average income `totalIncome / count` when the inner group
exists, else the literal `0`. -/
def stackedData (rows : List DataType) : List (String × List (String × Option ℚ)) :=
  (aggregatedData rows).map (fun e =>
    (e.1, riskCategories.map (fun risk =>
      (risk, match lookup1 e.2 risk with
        | some g => jsDiv g.totalIncome (g.count : ℚ)
        | none => some 0))))

end BarChart

namespace BarChartHW2

/-- `categorizeAge` from the Homework2 `BarChartOverview` variant (different
age cutoffs from the `part_000` variant). -/
def categorizeAge (age : ℚ) : String :=
  if 18 ≤ age ∧ age ≤ 25 then "18-25"
  else if 26 ≤ age ∧ age ≤ 35 then "26-35"
  else if 36 ≤ age ∧ age ≤ 45 then "36-45"
  else if 46 ≤ age ∧ age ≤ 55 then "46-55"
  else if 56 ≤ age ∧ age ≤ 69 then "56-69"
  else "Unknown"

end BarChartHW2

namespace Hexbin

/-- The `DataType` interface of `HexbinPlot`. -/
structure DataType where
  CreditScore : ℚ
  Income : ℚ
  RiskRating : String
  DebtToIncomeRatio : ℚ
  Age : ℚ
deriving DecidableEq

/-- The `d3.csv` row callback of `HexbinPlot`: the `!isNaN` checks are the
`some` pattern matches, truthiness of `riskRating` is `≠ ""`; a row failing
any check maps to `null` (`none`). -/
def load (d : RawRow) : Option DataType :=
  match d.creditScore, d.income, d.debtToIncomeRatio, d.age with
  | some creditScore, some income, some debtToIncomeRatio, some age =>
      if 600 ≤ creditScore ∧ creditScore ≤ 800 ∧ 0 < income ∧ d.riskRating ≠ "" then
        some { CreditScore := creditScore, Income := income, RiskRating := d.riskRating,
               DebtToIncomeRatio := debtToIncomeRatio, Age := age }
      else none
  | _, _, _, _ => none

/-- `loadedData.filter(d => d !== null)` as delivered to `setData`. -/
def validData (raws : List RawRow) : List DataType := raws.filterMap load

end Hexbin

namespace Sankey

/-- `assignIncomeToRange` from `ParallelCoordinatesPlot` (an identical copy
lives in the `SankeyPlot` component). -/
def assignIncomeToRange (income : ℚ) : String :=
  if income < 20000 then "< 20K"
  else if 20000 ≤ income ∧ income < 50000 then "20K - 50K"
  else if 50000 ≤ income ∧ income < 100000 then "50K - 100K"
  else if 100000 ≤ income ∧ income < 200000 then "100K - 200K"
  else "> 200K"

/-- The `DataType` interface of `ParallelCoordinatesPlot` / `SankeyPlot`
(`Income` is already bucketed to a range label by the loader). -/
structure DataType where
  EducationLevel : String
  PaymentHistory : String
  Income : String
  RiskRating : String
deriving DecidableEq

/-- The `d3.csv` row callback of `ParallelCoordinatesPlot` (and
`SankeyPlot`): truthiness checks on the three string columns are `≠ ""`; the
empty-or-unparseable income check is the `some` match. -/
def load (d : RawRow) : Option DataType :=
  match d.income with
  | some income =>
      if d.educationLevel ≠ "" ∧ d.paymentHistory ≠ "" ∧ d.riskRating ≠ "" then
        some { EducationLevel := d.educationLevel, PaymentHistory := d.paymentHistory,
               Income := assignIncomeToRange income, RiskRating := d.riskRating }
      else none
  | none => none

/-- `loadedData.filter(d => d !== null)` as delivered to `setData`. -/
def validData (raws : List RawRow) : List DataType := raws.filterMap load

/-- Node key `${dimension}_${value}` for each entry of
`dimensions = ['EducationLevel', 'PaymentHistory', 'Income', 'RiskRating']`. -/
def keyAt : Fin 4 → DataType → String
  | ⟨0, _⟩, d => "EducationLevel" ++ "_" ++ d.EducationLevel
  | ⟨1, _⟩, d => "PaymentHistory" ++ "_" ++ d.PaymentHistory
  | ⟨2, _⟩, d => "Income" ++ "_" ++ d.Income
  | ⟨3, _⟩, d => "RiskRating" ++ "_" ++ d.RiskRating

/-- The adjacent-dimension key pairs produced for one row by the
`dimensions.reduce` pass: dim 0 → dim 1, dim 1 → dim 2, dim 2 → dim 3. -/
def rowPairs (d : DataType) : List (String × String) :=
  [(keyAt 0 d, keyAt 1 d), (keyAt 1 d, keyAt 2 d), (keyAt 2 d, keyAt 3 d)]

/-- Every (row, adjacent-dimension) key-pair occurrence, in traversal order. -/
def allPairs (rows : List DataType) : List (String × String) := rows.flatMap rowPairs

/-- A `linksMap` value: `{ source, target, value }`. -/
structure Link where
  source : String
  target : String
  value : ℕ
deriving DecidableEq

/-- The `linksMap` key: the template literal concatenating the two node keys
around the separator `->`. -/
def linkKey (p : String × String) : String := p.1 ++ "->" ++ p.2

/-- `nodesSet.add`: a JavaScript `Set` keeps first-insertion order and
ignores repeats. -/
def addNode (nodes : List String) (s : String) : List String :=
  if s ∈ nodes then nodes else nodes ++ [s]

/-- One `linksMap` update: `value += 1` when the concatenated key is already
present, otherwise insert `{source, target, value: 1}` under that key. -/
def bumpLink (links : List (String × Link)) (p : String × String) : List (String × Link) :=
  if links.any (fun e => e.1 = linkKey p) then
    links.map (fun e => if e.1 = linkKey p then (e.1, { e.2 with value := e.2.value + 1 }) else e)
  else
    links ++ [(linkKey p, { source := p.1, target := p.2, value := 1 })]

/-- Processing one adjacent-dimension pair: add both nodes, bump the link. -/
def stepPair (st : List String × List (String × Link)) (p : String × String) :
    List String × List (String × Link) :=
  (addNode (addNode st.1 p.1) p.2, bumpLink st.2 p)

/-- The node/edge accumulation of `initChart` (`data.forEach` over
`dimensions.reduce`): for each row, each adjacent-dimension key pair adds its
two node keys to `nodesSet` and bumps its link in `linksMap`. Returns
(`nodesSet` as a list, `linksMap` as an association list), both in insertion
order. -/
def buildGraph (rows : List DataType) : List String × List (String × Link) :=
  rows.foldl (fun st d => (rowPairs d).foldl stepPair st) ([], [])

/-- Sum of link values over the links whose stored source node is `s`. -/
def outWeight (g : List String × List (String × Link)) (s : String) : ℕ :=
  ((g.2.filter (fun e => e.2.source = s)).map (fun e => e.2.value)).sum

/-- Number of rows whose node key at one of the non-last dimensions is `s`. -/
def rowsThrough (s : String) (rows : List DataType) : ℕ :=
  rows.countP (fun d => keyAt 0 d = s ∨ keyAt 1 d = s ∨ keyAt 2 d = s)

end Sankey

/-- Modelled from the spec: an entry `{min, max, label}` of an ordered bucket
table over a numeric domain, interval closed on both ends. -/
structure AgeInterval where
  min : ℚ
  max : ℚ
  label : String
deriving DecidableEq

/-- The age table of the `part_000` `categorizeAge`. -/
def ageTable : List AgeInterval :=
  [⟨18, 27, "18-27"⟩, ⟨28, 37, "28-37"⟩, ⟨38, 47, "38-47"⟩,
   ⟨48, 57, "48-57"⟩, ⟨58, 69, "58-69"⟩]

/-- The age table of the Homework2 `categorizeAge` variant. -/
def ageTableHW2 : List AgeInterval :=
  [⟨18, 25, "18-25"⟩, ⟨26, 35, "26-35"⟩, ⟨36, 45, "36-45"⟩,
   ⟨46, 55, "46-55"⟩, ⟨56, 69, "56-69"⟩]

/-- Modelled from the spec: `bucket(value, table)` returns the label of the
first interval containing the value (closed on both ends), else the
designated fallback label. -/
def bucketClosed (table : List AgeInterval) (fallback : String) (v : ℚ) : String :=
  ((table.find? (fun iv => decide (iv.min ≤ v ∧ v ≤ iv.max))).map (fun iv => iv.label)).getD
    fallback

/-- An income interval as written in `assignIncomeToRange`: optional lower
bound (the first range has none), strict upper bound. -/
structure IncomeInterval where
  lo : Option ℚ
  hi : ℚ
  label : String
deriving DecidableEq

/-- The listed (bounded-above) income ranges of `assignIncomeToRange`; the
open-ended "> 200K" range is the fallback, not a table entry. -/
def incomeTable : List IncomeInterval :=
  [⟨none, 20000, "< 20K"⟩, ⟨some 20000, 50000, "20K - 50K"⟩,
   ⟨some 50000, 100000, "50K - 100K"⟩, ⟨some 100000, 200000, "100K - 200K"⟩]

/-- Membership in an income interval: `lo ≤ v` (vacuous when there is no
lower bound) and strictly `v < hi`. -/
def memIncome (iv : IncomeInterval) (v : ℚ) : Bool :=
  (iv.lo.all fun a => decide (a ≤ v)) && decide (v < iv.hi)

/-- Modelled from the spec: first matching listed income interval, else the
fallback label. -/
def bucketIncome (table : List IncomeInterval) (fallback : String) (v : ℚ) : String :=
  ((table.find? (fun iv => memIncome iv v)).map (fun iv => iv.label)).getD fallback

namespace Sankey

/-- The stored weight of the link under concatenated key `k` in `linksMap`
(`0` when the key is absent). -/
def linkVal (ls : List (String × Link)) (k : String) : ℕ :=
  ((ls.find? (fun e => e.1 = k)).map (fun e => e.2.value)).getD 0

end Sankey

/-! ## Helper lemmas: first-seen key order -/

theorem mem_firstDedupAux (a : String) (seen l : List String) :
    a ∈ firstDedupAux seen l ↔ a ∈ l ∧ a ∉ seen := by
  induction l generalizing seen with
  | nil => simp [firstDedupAux]
  | cons b l ih =>
    simp only [firstDedupAux]
    split
    · rename_i hb
      rw [ih]
      simp only [List.mem_cons]
      constructor
      · rintro ⟨h1, h2⟩; exact ⟨Or.inr h1, h2⟩
      · rintro ⟨rfl | h1, h2⟩
        · exact absurd hb h2
        · exact ⟨h1, h2⟩
    · rename_i hb
      simp only [List.mem_cons, ih, List.mem_cons]
      constructor
      · rintro (rfl | ⟨h1, h2⟩)
        · exact ⟨Or.inl rfl, hb⟩
        · constructor
          · exact Or.inr h1
          · intro hc; exact h2 (Or.inr hc)
      · rintro ⟨rfl | h1, h2⟩
        · exact Or.inl rfl
        · by_cases hab : a = b
          · exact Or.inl hab
          · refine Or.inr ⟨h1, ?_⟩
            rintro (rfl | hc)
            · exact hab rfl
            · exact h2 hc

theorem nodup_firstDedupAux (seen l : List String) : (firstDedupAux seen l).Nodup := by
  induction l generalizing seen with
  | nil => simp [firstDedupAux]
  | cons b l ih =>
    simp only [firstDedupAux]
    split
    · exact ih seen
    · refine List.Nodup.cons ?_ (ih (b :: seen))
      intro hb
      rw [mem_firstDedupAux] at hb
  
      exact hb.2 (List.mem_cons_self _ _)

theorem mem_firstDedup (a : String) (l : List String) : a ∈ firstDedup l ↔ a ∈ l := by
  rw [firstDedup, mem_firstDedupAux]
  simp

theorem nodup_firstDedup (l : List String) : (firstDedup l).Nodup :=
  nodup_firstDedupAux [] l

theorem mem_keysInOrder {R : Type} (k : R → String) (rows : List R) (a : String) :
    a ∈ keysInOrder k rows ↔ ∃ r ∈ rows, k r = a := by
  rw [keysInOrder, mem_firstDedup, List.mem_map]

theorem nodup_keysInOrder {R : Type} (k : R → String) (rows : List R) :
    (keysInOrder k rows).Nodup :=
  nodup_firstDedup _

/-! ## Helper lemmas: association-list lookup on keyed maps -/

theorem find?_map_key {α : Type} (l : List String) (f : String → α) (a : String) :
    (l.map (fun x => (x, f x))).find? (fun e => e.1 = a) =
      if a ∈ l then some (a, f a) else none := by
  induction l with
  | nil => simp
  | cons b l ih =>
    by_cases hb : b = a
    · subst hb
      rw [List.map_cons, List.find?_cons_of_pos, if_pos (List.mem_cons_self _ _)]
      simp
    · rw [List.map_cons, List.find?_cons_of_neg, ih]
      · have hmem : (a ∈ b :: l) ↔ (a ∈ l) := by
          simp [List.mem_cons, Ne.symm hb]
        simp only [hmem]
      · simp [hb]

theorem lookup1_keyed {α : Type} (l : List String) (f : String → α) (a : String) :
    lookup1 (l.map (fun x => (x, f x))) a = if a ∈ l then some (f a) else none := by
  rw [lookup1, find?_map_key]
  split <;> simp

/-- Characterization of the two-level lookup into a `rollup2` result: present
exactly when the doubly-filtered group is non-empty, and then carrying that
group's measure sum and length. -/
theorem lookup2_rollup2 {R : Type} (rows : List R) (k1 k2 : R → String) (m : R → ℚ)
    (a b : String) :
    lookup2 (rollup2 rows k1 k2 m) a b =
      (if ((rows.filter (fun r => k1 r = a)).filter (fun r => k2 r = b)).isEmpty then none
       else some
         { totalIncome :=
             (((rows.filter (fun r => k1 r = a)).filter (fun r => k2 r = b)).map m).sum,
           count := ((rows.filter (fun r => k1 r = a)).filter (fun r => k2 r = b)).length }) := by
  rw [lookup2, rollup2, lookup1_keyed]
  by_cases ha : a ∈ keysInOrder k1 rows
  · rw [if_pos ha]
    simp only [Option.some_bind]
    rw [lookup1_keyed]
    by_cases hb : b ∈ keysInOrder k2 (rows.filter (fun r => k1 r = a))
    · rw [if_pos hb]
      have : ¬((rows.filter (fun r => k1 r = a)).filter (fun r => k2 r = b)).isEmpty := by
        rw [mem_keysInOrder] at hb
        obtain ⟨r, hr, hkr⟩ := hb
        have : r ∈ (rows.filter (fun r => k1 r = a)).filter (fun r => k2 r = b) := by
          rw [List.mem_filter]
          exact ⟨hr, by simpa using hkr⟩
        intro hemp
        rw [List.isEmpty_iff] at hemp
        rw [hemp] at this
        exact absurd this (List.not_mem_nil r)
      rw [if_neg this]
    · rw [if_neg hb]
      have : ((rows.filter (fun r => k1 r = a)).filter (fun r => k2 r = b)).isEmpty := by
        rw [List.isEmpty_iff, List.filter_eq_nil_iff]
        intro r hr
        rw [mem_keysInOrder] at hb
        intro hk
        exact hb ⟨r, hr, by simpa using hk⟩
      rw [if_pos this]
  · rw [if_neg ha]
    have hnil : rows.filter (fun r => k1 r = a) = [] := by
      rw [List.filter_eq_nil_iff]
      intro r hr hk
      rw [mem_keysInOrder] at ha
      exact ha ⟨r, hr, by simpa using hk⟩
    rw [hnil]
    simp

/-! ## Helper lemmas: grouping is a disjoint cover of the input rows -/

theorem length_eq_sum_map_one {R : Type} (l : List R) :
    (l.map (fun _ => (1 : ℕ))).sum = l.length := by
  induction l with
  | nil => rfl
  | cons _ l ih => simp [ih, Nat.add_comm]

/-- Summing a measure groupwise over a duplicate-free key list covering all
rows gives the sum over all rows. -/
theorem sum_map_over_keys {R M : Type} [AddCommMonoid M] (k : R → String) (f : R → M) :
    ∀ keys : List String, keys.Nodup → ∀ rows : List R,
      (∀ r ∈ rows, k r ∈ keys) →
      (keys.map (fun a => ((rows.filter (fun r => k r = a)).map f).sum)).sum
        = (rows.map f).sum := by
  intro keys
  induction keys with
  | nil =>
    intro _ rows hcov
    have hempty : rows = [] :=
      List.eq_nil_iff_forall_not_mem.mpr (fun r hr => by simpa using hcov r hr)
    subst hempty
    simp
  | cons a keys ih =>
    intro hnd rows hcov
    rw [List.nodup_cons] at hnd
    have hsplit :
        ((rows.filter (fun r => k r = a)) ++ (rows.filter (fun r => ¬(k r = a)))).Perm rows := by
      have := List.filter_append_perm (fun r => decide (k r = a)) rows
      simpa using this
    have hsum : (rows.map f).sum
        = ((rows.filter (fun r => k r = a)).map f).sum
          + ((rows.filter (fun r => ¬(k r = a))).map f).sum := by
      rw [← List.sum_append, ← List.map_append]
      exact ((hsplit.map f).sum_eq).symm
    have hterm : ∀ b ∈ keys,
        ((rows.filter (fun r => k r = b)).map f).sum
          = (((rows.filter (fun r => ¬(k r = a))).filter (fun r => k r = b)).map f).sum := by
      intro b hbk
      have hbne : b ≠ a := fun hba => hnd.1 (hba ▸ hbk)
      have : (rows.filter (fun r => ¬(k r = a))).filter (fun r => k r = b)
          = rows.filter (fun r => k r = b) := by
        rw [List.filter_filter]
        apply List.filter_congr
        intro r _
        by_cases hkr : k r = b
        · simp [hkr, hbne]
        · simp [hkr]
      rw [this]
    have hcov' : ∀ r ∈ rows.filter (fun r => ¬(k r = a)), k r ∈ keys := by
      intro r hr
      rw [List.mem_filter] at hr
      have := hcov r hr.1
      rw [List.mem_cons] at this
      rcases this with hka | hk
      · exact absurd hka (by simpa using hr.2)
      · exact hk
    calc (((a :: keys)).map (fun b => ((rows.filter (fun r => k r = b)).map f).sum)).sum
        = ((rows.filter (fun r => k r = a)).map f).sum
          + (keys.map (fun b => ((rows.filter (fun r => k r = b)).map f).sum)).sum := by
          simp
      _ = ((rows.filter (fun r => k r = a)).map f).sum
          + (keys.map (fun b =>
              (((rows.filter (fun r => ¬(k r = a))).filter (fun r => k r = b)).map f).sum)).sum := by
          rw [List.map_congr_left hterm]
      _ = ((rows.filter (fun r => k r = a)).map f).sum
          + ((rows.filter (fun r => ¬(k r = a))).map f).sum := by
          rw [ih hnd.2 _ hcov']
      _ = (rows.map f).sum := hsum.symm

theorem totalSum_rollup2 {R : Type} (rows : List R) (k1 k2 : R → String) (m : R → ℚ) :
    totalSum (rollup2 rows k1 k2 m) = (rows.map m).sum := by
  rw [totalSum, rollup2, List.map_map]
  have hinner : ∀ a : String,
      ((fun e : String × List (String × AggCell) =>
          (e.2.map (fun i => i.2.totalIncome)).sum) ∘ (fun a =>
            (a, (keysInOrder k2 (rows.filter (fun r => k1 r = a))).map (fun b =>
              (b, { totalIncome :=
                      (((rows.filter (fun r => k1 r = a)).filter
                        (fun r => k2 r = b)).map m).sum,
                    count := ((rows.filter (fun r => k1 r = a)).filter
                        (fun r => k2 r = b)).length : AggCell }))))) a
        = ((rows.filter (fun r => k1 r = a)).map m).sum := by
    intro a
    simp only [Function.comp, List.map_map]
    exact sum_map_over_keys k2 m _ (nodup_keysInOrder _ _) _
      (fun r hr => (mem_keysInOrder k2 _ _).mpr ⟨r, hr, rfl⟩)
  rw [List.map_congr_left (fun a _ => hinner a)]
  exact sum_map_over_keys k1 m _ (nodup_keysInOrder _ _) _
    (fun r hr => (mem_keysInOrder k1 _ _).mpr ⟨r, hr, rfl⟩)

theorem totalCount_rollup2 {R : Type} (rows : List R) (k1 k2 : R → String) (m : R → ℚ) :
    totalCount (rollup2 rows k1 k2 m) = rows.length := by
  rw [totalCount, rollup2, List.map_map]
  have hinner : ∀ a : String,
      ((fun e : String × List (String × AggCell) =>
          (e.2.map (fun i => i.2.count)).sum) ∘ (fun a =>
            (a, (keysInOrder k2 (rows.filter (fun r => k1 r = a))).map (fun b =>
              (b, { totalIncome :=
                      (((rows.filter (fun r => k1 r = a)).filter
                        (fun r => k2 r = b)).map m).sum,
                    count := ((rows.filter (fun r => k1 r = a)).filter
                        (fun r => k2 r = b)).length : AggCell }))))) a
        = ((rows.filter (fun r => k1 r = a)).map (fun _ => (1 : ℕ))).sum := by
    intro a
    simp only [Function.comp, List.map_map]
    have hlen : ∀ b : String,
        ((rows.filter (fun r => k1 r = a)).filter (fun r => k2 r = b)).length
          = (((rows.filter (fun r => k1 r = a)).filter
              (fun r => k2 r = b)).map (fun _ => (1 : ℕ))).sum := by
      intro b
      rw [length_eq_sum_map_one]
    calc ((keysInOrder k2 (rows.filter (fun r => k1 r = a))).map (fun b =>
            ((rows.filter (fun r => k1 r = a)).filter (fun r => k2 r = b)).length)).sum
        = ((keysInOrder k2 (rows.filter (fun r => k1 r = a))).map (fun b =>
            (((rows.filter (fun r => k1 r = a)).filter
              (fun r => k2 r = b)).map (fun _ => (1 : ℕ))).sum)).sum := by
          rw [List.map_congr_left (fun b _ => hlen b)]
      _ = ((rows.filter (fun r => k1 r = a)).map (fun _ => (1 : ℕ))).sum :=
          sum_map_over_keys k2 (fun _ => (1 : ℕ)) _ (nodup_keysInOrder _ _) _
            (fun r hr => (mem_keysInOrder k2 _ _).mpr ⟨r, hr, rfl⟩)
  rw [List.map_congr_left (fun a _ => hinner a)]
  rw [sum_map_over_keys k1 (fun _ => (1 : ℕ)) _ (nodup_keysInOrder _ _) _
    (fun r hr => (mem_keysInOrder k1 _ _).mpr ⟨r, hr, rfl⟩)]
  exact length_eq_sum_map_one rows

/-! ## Helper lemmas: bucketing functions vs their interval tables -/

theorem categorizeAge_eq_bucketClosed (v : ℚ) :
    BarChart.categorizeAge v = bucketClosed ageTable "Unknown" v := by
  by_cases h1 : 18 ≤ v ∧ v ≤ 27 <;>
  by_cases h2 : 28 ≤ v ∧ v ≤ 37 <;>
  by_cases h3 : 38 ≤ v ∧ v ≤ 47 <;>
  by_cases h4 : 48 ≤ v ∧ v ≤ 57 <;>
  by_cases h5 : 58 ≤ v ∧ v ≤ 69 <;>
  simp [BarChart.categorizeAge, bucketClosed, ageTable, List.find?_cons, h1, h2, h3, h4, h5]

theorem categorizeAgeHW2_eq_bucketClosed (v : ℚ) :
    BarChartHW2.categorizeAge v = bucketClosed ageTableHW2 "Unknown" v := by
  by_cases h1 : 18 ≤ v ∧ v ≤ 25 <;>
  by_cases h2 : 26 ≤ v ∧ v ≤ 35 <;>
  by_cases h3 : 36 ≤ v ∧ v ≤ 45 <;>
  by_cases h4 : 46 ≤ v ∧ v ≤ 55 <;>
  by_cases h5 : 56 ≤ v ∧ v ≤ 69 <;>
  simp [BarChartHW2.categorizeAge, bucketClosed, ageTableHW2, List.find?_cons,
    h1, h2, h3, h4, h5]

theorem assignIncomeToRange_eq_bucketIncome (v : ℚ) :
    Sankey.assignIncomeToRange v = bucketIncome incomeTable "> 200K" v := by
  by_cases h1 : v < 20000 <;>
  by_cases h2 : 20000 ≤ v ∧ v < 50000 <;>
  by_cases h3 : 50000 ≤ v ∧ v < 100000 <;>
  by_cases h4 : 100000 ≤ v ∧ v < 200000 <;>
  simp [Sankey.assignIncomeToRange, bucketIncome, incomeTable, memIncome, Option.all,
    List.find?_cons, h1, h2, h3, h4]

theorem categorizeAge_mem_iff (v : ℚ) (iv : AgeInterval) (hiv : iv ∈ ageTable) :
    (BarChart.categorizeAge v = iv.label ↔ iv.min ≤ v ∧ v ≤ iv.max) := by
  fin_cases hiv <;>
    (unfold BarChart.categorizeAge; split_ifs <;> simp_all <;> intros <;> linarith)

theorem categorizeAgeHW2_mem_iff (v : ℚ) (iv : AgeInterval) (hiv : iv ∈ ageTableHW2) :
    (BarChartHW2.categorizeAge v = iv.label ↔ iv.min ≤ v ∧ v ≤ iv.max) := by
  fin_cases hiv <;>
    (unfold BarChartHW2.categorizeAge; split_ifs <;> simp_all <;> intros <;> linarith)

theorem assignIncomeToRange_mem_iff (v : ℚ) (iv : IncomeInterval) (hiv : iv ∈ incomeTable) :
    (Sankey.assignIncomeToRange v = iv.label ↔ memIncome iv v = true) := by
  fin_cases hiv <;>
    (unfold Sankey.assignIncomeToRange;
     simp only [memIncome, Option.all, Bool.and_eq_true, decide_eq_true_eq];
     split_ifs <;> simp_all <;> intros <;> linarith)

/-! ## Helper lemmas: flow-graph construction -/

namespace Sankey

theorem mem_addNode (nodes : List String) (t s : String) :
    s ∈ addNode nodes t ↔ s ∈ nodes ∨ s = t := by
  rw [addNode]
  split
  · rename_i ht
    constructor
    · exact Or.inl
    · rintro (h | rfl)
      · exact h
      · exact ht
  · simp [List.mem_append]

theorem nodup_addNode (nodes : List String) (t : String) (h : nodes.Nodup) :
    (addNode nodes t).Nodup := by
  rw [addNode]
  split
  · exact h
  · rename_i ht
    rw [List.nodup_append]
    exact ⟨h, List.nodup_singleton _, by rwa [List.disjoint_singleton]⟩

theorem mem_foldl_addNode (s : String) :
    ∀ (ps : List (String × String)) (ns : List String),
      (s ∈ ps.foldl (fun ns p => addNode (addNode ns p.1) p.2) ns
        ↔ s ∈ ns ∨ ∃ p ∈ ps, s = p.1 ∨ s = p.2) := by
  intro ps
  induction ps with
  | nil => intro ns; simp
  | cons p ps ih =>
    intro ns
    rw [List.foldl_cons, ih, mem_addNode, mem_addNode]
    constructor
    · rintro (((h | rfl) | rfl) | ⟨q, hq, hqs⟩)
      · exact Or.inl h
      · exact Or.inr ⟨p, List.mem_cons_self _ _, Or.inl rfl⟩
      · exact Or.inr ⟨p, List.mem_cons_self _ _, Or.inr rfl⟩
      · exact Or.inr ⟨q, List.mem_cons_of_mem _ hq, hqs⟩
    · rintro (h | ⟨q, hq, hqs⟩)
      · exact Or.inl (Or.inl (Or.inl h))
      · rcases List.mem_cons.mp hq with rfl | hq'
        · rcases hqs with rfl | rfl
          · exact Or.inl (Or.inl (Or.inr rfl))
          · exact Or.inl (Or.inr rfl)
        · exact Or.inr ⟨q, hq', hqs⟩

theorem nodup_foldl_addNode :
    ∀ (ps : List (String × String)) (ns : List String), ns.Nodup →
      (ps.foldl (fun ns p => addNode (addNode ns p.1) p.2) ns).Nodup := by
  intro ps
  induction ps with
  | nil => intro ns h; exact h
  | cons p ps ih => intro ns h; exact ih _ (nodup_addNode _ _ (nodup_addNode _ _ h))

theorem keys_bumpLink (ls : List (String × Link)) (p : String × String) :
    (bumpLink ls p).map Prod.fst
      = if ls.any (fun e => e.1 = linkKey p) then ls.map Prod.fst
        else ls.map Prod.fst ++ [linkKey p] := by
  by_cases hc : ls.any (fun e => e.1 = linkKey p)
  · rw [bumpLink, if_pos hc, if_pos hc, List.map_map]
    apply List.map_congr_left
    intro e _
    by_cases he : e.1 = linkKey p <;> simp [he]
  · rw [bumpLink, if_neg hc, if_neg hc, List.map_append]
    rfl

theorem nodupKeys_bumpLink (ls : List (String × Link)) (p : String × String)
    (h : (ls.map Prod.fst).Nodup) : ((bumpLink ls p).map Prod.fst).Nodup := by
  rw [keys_bumpLink]
  split
  · exact h
  · rename_i hc
    rw [List.nodup_append]
    refine ⟨h, List.nodup_singleton _, ?_⟩
    rw [List.disjoint_singleton]
    intro hmem
    rw [List.mem_map] at hmem
    obtain ⟨e, he, hke⟩ := hmem
    rw [List.any_eq_true] at hc
    exact hc ⟨e, he, by simp [hke]⟩

theorem wf_bumpLink (Occ : List (String × String)) (ls : List (String × Link))
    (p : String × String)
    (hwf : ∀ e ∈ ls, e.1 = e.2.source ++ "->" ++ e.2.target ∧ (e.2.source, e.2.target) ∈ Occ)
    (hp : p ∈ Occ) :
    ∀ e ∈ bumpLink ls p,
      e.1 = e.2.source ++ "->" ++ e.2.target ∧ (e.2.source, e.2.target) ∈ Occ := by
  intro e he
  rw [bumpLink] at he
  split at he
  · rw [List.mem_map] at he
    obtain ⟨e0, he0, rfl⟩ := he
    by_cases h0 : e0.1 = linkKey p
    · rw [if_pos h0]
      exact ⟨(hwf e0 he0).1, (hwf e0 he0).2⟩
    · rw [if_neg h0]
      exact hwf e0 he0
  · rw [List.mem_append] at he
    rcases he with he | he
    · exact hwf e he
    · rw [List.mem_singleton] at he
      subst he
      exact ⟨rfl, by simpa using hp⟩

theorem linkVal_bumpLink (ls : List (String × Link)) (p : String × String) (k : String) :
    linkVal (bumpLink ls p) k = linkVal ls k + (if linkKey p = k then 1 else 0) := by
  rw [bumpLink]
  split
  · rename_i hc
    rw [linkVal, List.find?_map]
    have hpred : ((fun e : String × Link => decide (e.1 = k)) ∘
        (fun e => if e.1 = linkKey p then (e.1, { e.2 with value := e.2.value + 1 }) else e))
        = (fun e : String × Link => decide (e.1 = k)) := by
      funext e
      by_cases he : e.1 = linkKey p <;> simp [he]
    rw [hpred, linkVal]
    cases hfind : ls.find? (fun e => e.1 = k) with
    | none =>
      have hnk : ¬(linkKey p = k) := by
        rw [List.find?_eq_none] at hfind
        rw [List.any_eq_true] at hc
        obtain ⟨e, he, hek⟩ := hc
        intro hk
        exact hfind e he (by simp_all)
      simp [hnk]
    | some e =>
      have hek : e.1 = k := by simpa using List.find?_some hfind
      by_cases hkp : linkKey p = k
      · rw [if_pos hkp]
        have hekey : e.1 = linkKey p := by rw [hek, hkp]
        simp [hekey]
      · rw [if_neg hkp]
        have hekey : ¬(e.1 = linkKey p) := by
          rw [hek]
          exact fun h => hkp h.symm
        simp [hekey]
  · rename_i hc
    rw [linkVal, linkVal, List.find?_append]
    cases hfind : ls.find? (fun e => e.1 = k) with
    | some e =>
      have hnk : ¬(linkKey p = k) := by
        intro hk
        rw [List.any_eq_true] at hc
        have hek : e.1 = k := by simpa using List.find?_some hfind
        exact hc ⟨e, List.mem_of_find?_eq_some hfind, by simp [hek, hk]⟩
      simp [hnk]
    | none =>
      by_cases hkp : linkKey p = k <;> simp [hkp]

theorem sum_map_add {R : Type} (l : List R) (f g : R → ℕ) :
    (l.map (fun x => f x + g x)).sum = (l.map f).sum + (l.map g).sum := by
  induction l with
  | nil => rfl
  | cons x l ih => simp [ih]; omega

theorem sum_map_ite_eq_countP {R : Type} (l : List R) (q : R → Bool) :
    (l.map (fun x => if q x then (1 : ℕ) else 0)).sum = l.countP q := by
  induction l with
  | nil => rfl
  | cons x l ih =>
    rw [List.map_cons, List.sum_cons, ih, List.countP_cons]
    by_cases hx : q x <;> simp [hx] <;> omega

theorem countP_key_eq_one :
    ∀ (ls : List (String × Link)) (k : String), (ls.map Prod.fst).Nodup →
      ls.any (fun e => e.1 = k) →
      ls.countP (fun e => e.1 = k) = 1 := by
  intro ls
  induction ls with
  | nil => intro k _ hany; simp at hany
  | cons e ls ih =>
    intro k hnd hany
    rw [List.map_cons, List.nodup_cons] at hnd
    by_cases hek : e.1 = k
    · rw [List.countP_cons, if_pos (by simpa using hek)]
      have hzero : ls.countP (fun x => x.1 = k) = 0 := by
        rw [List.countP_eq_zero]
        intro x hx
        simp only [decide_eq_true_eq]
        intro hxk
        exact hnd.1 (by rw [hek, ← hxk]; exact List.mem_map_of_mem Prod.fst hx)
      rw [hzero]
    · rw [List.countP_cons, if_neg (by simpa using hek)]
      refine ih k hnd.2 ?_
      rw [List.any_cons] at hany
      simpa [hek] using hany

theorem countP_key_src (ls : List (String × Link)) (p : String × String) (s : String)
    (hnd : (ls.map Prod.fst).Nodup)
    (hsrc : ∀ e ∈ ls, e.1 = linkKey p → e.2.source = p.1)
    (hpres : ls.any (fun e => e.1 = linkKey p)) :
    ls.countP (fun e => e.2.source = s ∧ e.1 = linkKey p) = if p.1 = s then 1 else 0 := by
  by_cases hps : p.1 = s
  · rw [if_pos hps, ← countP_key_eq_one ls (linkKey p) hnd hpres]
    apply List.countP_congr
    intro e he
    simp only [decide_eq_true_eq]
    constructor
    · rintro ⟨_, hk⟩; exact hk
    · intro hk; exact ⟨by rw [hsrc e he hk, hps], hk⟩
  · rw [if_neg hps, List.countP_eq_zero]
    intro e he
    simp only [decide_eq_true_eq]
    rintro ⟨hs, hk⟩
    exact hps (by rw [← hsrc e he hk, hs])

theorem sumSource_bumpLink (ls : List (String × Link)) (p : String × String) (s : String)
    (hnd : (ls.map Prod.fst).Nodup)
    (hsrc : ∀ e ∈ ls, e.1 = linkKey p → e.2.source = p.1) :
    (((bumpLink ls p).filter (fun e => e.2.source = s)).map (fun e => e.2.value)).sum
      = ((ls.filter (fun e => e.2.source = s)).map (fun e => e.2.value)).sum
        + (if p.1 = s then 1 else 0) := by
  rw [bumpLink]
  split
  · rename_i hc
    rw [List.filter_map]
    have hpred : ((fun e : String × Link => decide (e.2.source = s)) ∘
        (fun e => if e.1 = linkKey p then (e.1, { e.2 with value := e.2.value + 1 }) else e))
        = (fun e : String × Link => decide (e.2.source = s)) := by
      funext e
      by_cases he : e.1 = linkKey p <;> simp [he]
    rw [hpred, List.map_map]
    have hval : ∀ e ∈ ls.filter (fun e => e.2.source = s),
        ((fun e : String × Link => e.2.value) ∘ (fun e =>
          if e.1 = linkKey p then (e.1, { e.2 with value := e.2.value + 1 }) else e)) e
        = e.2.value + (if (fun e : String × Link => decide (e.1 = linkKey p)) e then 1 else 0) := by
      intro e _
      by_cases he : e.1 = linkKey p <;> simp [he]
    rw [List.map_congr_left hval, sum_map_add, sum_map_ite_eq_countP, List.countP_filter]
    have hcnt : (ls.countP (fun e => decide (e.1 = linkKey p) && decide (e.2.source = s)))
        = ls.countP (fun e => e.2.source = s ∧ e.1 = linkKey p) := by
      apply List.countP_congr
      intro e _
      simp only [Bool.and_eq_true, decide_eq_true_eq]
      tauto
    rw [hcnt, countP_key_src ls p s hnd hsrc hc]
  · rename_i hc
    rw [List.filter_append, List.map_append, List.sum_append]
    by_cases hps : p.1 = s <;> simp [hps]

theorem nodupKeys_foldl_bumpLink :
    ∀ (ps : List (String × String)) (ls : List (String × Link)),
      (ls.map Prod.fst).Nodup → ((ps.foldl bumpLink ls).map Prod.fst).Nodup := by
  intro ps
  induction ps with
  | nil => intro ls h; exact h
  | cons p ps ih => intro ls h; exact ih _ (nodupKeys_bumpLink _ _ h)

theorem wf_foldl_bumpLink (Occ : List (String × String)) :
    ∀ ps : List (String × String), (∀ p ∈ ps, p ∈ Occ) →
      ∀ ls : List (String × Link),
      (∀ e ∈ ls, e.1 = e.2.source ++ "->" ++ e.2.target ∧ (e.2.source, e.2.target) ∈ Occ) →
      ∀ e ∈ ps.foldl bumpLink ls,
        e.1 = e.2.source ++ "->" ++ e.2.target ∧ (e.2.source, e.2.target) ∈ Occ := by
  intro ps
  induction ps with
  | nil => intro _ ls h; exact h
  | cons p ps ih =>
    intro hps ls h
    exact ih (fun q hq => hps q (List.mem_cons_of_mem _ hq)) _
      (wf_bumpLink Occ ls p h (hps p (List.mem_cons_self _ _)))

theorem linkVal_foldl_bumpLink :
    ∀ (ps : List (String × String)) (ls : List (String × Link)) (k : String),
      linkVal (ps.foldl bumpLink ls) k
        = linkVal ls k + ps.countP (fun q => linkKey q = k) := by
  intro ps
  induction ps with
  | nil => intro ls k; simp
  | cons p ps ih =>
    intro ls k
    rw [List.foldl_cons, ih, linkVal_bumpLink, List.countP_cons]
    by_cases hk : linkKey p = k <;> simp [hk] <;> omega

theorem sumSource_foldl_bumpLink (Occ : List (String × String))
    (hinj : ∀ q1 ∈ Occ, ∀ q2 ∈ Occ, linkKey q1 = linkKey q2 → q1 = q2) :
    ∀ ps : List (String × String), (∀ p ∈ ps, p ∈ Occ) →
      ∀ ls : List (String × Link), (ls.map Prod.fst).Nodup →
      (∀ e ∈ ls, e.1 = e.2.source ++ "->" ++ e.2.target ∧ (e.2.source, e.2.target) ∈ Occ) →
      ∀ s : String,
      (((ps.foldl bumpLink ls).filter (fun e => e.2.source = s)).map (fun e => e.2.value)).sum
        = ((ls.filter (fun e => e.2.source = s)).map (fun e => e.2.value)).sum
          + ps.countP (fun q => q.1 = s) := by
  intro ps
  induction ps with
  | nil => intro _ ls _ _ s; simp
  | cons p ps ih =>
    intro hps ls hnd hwf s
    have hpOcc : p ∈ Occ := hps p (List.mem_cons_self _ _)
    have hsrc : ∀ e ∈ ls, e.1 = linkKey p → e.2.source = p.1 := by
      intro e he hek
      have h1 := hwf e he
      have h2 : linkKey (e.2.source, e.2.target) = linkKey p := by
        rw [linkKey]
        exact h1.1 ▸ hek
      have h3 := hinj _ h1.2 _ hpOcc h2
      have h4 := congrArg Prod.fst h3
      simpa using h4
    rw [List.foldl_cons,
      ih (fun q hq => hps q (List.mem_cons_of_mem _ hq)) _
        (nodupKeys_bumpLink _ _ hnd) (wf_bumpLink Occ ls p hwf hpOcc) s,
      sumSource_bumpLink ls p s hnd hsrc, List.countP_cons]
    by_cases hs : p.1 = s <;> simp [hs] <;> omega

theorem foldl_stepPair_eq :
    ∀ (ps : List (String × String)) (st : List String × List (String × Link)),
      ps.foldl stepPair st
        = (ps.foldl (fun ns p => addNode (addNode ns p.1) p.2) st.1, ps.foldl bumpLink st.2) := by
  intro ps
  induction ps with
  | nil => intro st; rfl
  | cons p ps ih => intro st; rw [List.foldl_cons, ih]; rfl

theorem buildGraph_eq_foldl (rows : List DataType) :
    buildGraph rows
      = ((allPairs rows).foldl (fun ns p => addNode (addNode ns p.1) p.2) [],
         (allPairs rows).foldl bumpLink []) := by
  suffices h : ∀ (rs : List DataType) (st : List String × List (String × Link)),
      rs.foldl (fun st d => (rowPairs d).foldl stepPair st) st
        = ((rs.flatMap rowPairs).foldl (fun ns p => addNode (addNode ns p.1) p.2) st.1,
           (rs.flatMap rowPairs).foldl bumpLink st.2) by
    exact h rows ([], [])
  intro rs
  induction rs with
  | nil => intro st; rfl
  | cons d rs ih =>
    intro st
    rw [List.foldl_cons, List.flatMap_cons, List.foldl_append, List.foldl_append, ih,
      foldl_stepPair_eq]

theorem keyAt_zero (d : DataType) :
    keyAt 0 d = "EducationLevel" ++ "_" ++ d.EducationLevel := rfl

theorem keyAt_one (d : DataType) :
    keyAt 1 d = "PaymentHistory" ++ "_" ++ d.PaymentHistory := rfl

theorem keyAt_two (d : DataType) :
    keyAt 2 d = "Income" ++ "_" ++ d.Income := rfl

theorem keyAt_three (d : DataType) :
    keyAt 3 d = "RiskRating" ++ "_" ++ d.RiskRating := rfl

theorem keyAt_zero_ne_one (d e : DataType) : keyAt 0 d ≠ keyAt 1 e := by
  intro h
  rw [keyAt_zero, keyAt_one] at h
  have h2 := congrArg String.data h
  simp [String.data_append] at h2

theorem keyAt_zero_ne_two (d e : DataType) : keyAt 0 d ≠ keyAt 2 e := by
  intro h
  rw [keyAt_zero, keyAt_two] at h
  have h2 := congrArg String.data h
  simp [String.data_append] at h2

theorem keyAt_one_ne_two (d e : DataType) : keyAt 1 d ≠ keyAt 2 e := by
  intro h
  rw [keyAt_one, keyAt_two] at h
  have h2 := congrArg String.data h
  simp [String.data_append] at h2

theorem countP_rowPairs_src (d : DataType) (s : String) :
    (rowPairs d).countP (fun q => q.1 = s)
      = if keyAt 0 d = s ∨ keyAt 1 d = s ∨ keyAt 2 d = s then 1 else 0 := by
  by_cases h0 : keyAt 0 d = s <;> by_cases h1 : keyAt 1 d = s <;>
    by_cases h2 : keyAt 2 d = s
  · exact absurd (h0.trans h1.symm) (keyAt_zero_ne_one d d)
  · exact absurd (h0.trans h1.symm) (keyAt_zero_ne_one d d)
  · exact absurd (h0.trans h2.symm) (keyAt_zero_ne_two d d)
  · simp [rowPairs, List.countP_cons, h0, h1, h2]
  · exact absurd (h1.trans h2.symm) (keyAt_one_ne_two d d)
  · simp [rowPairs, List.countP_cons, h0, h1, h2]
  · simp [rowPairs, List.countP_cons, h0, h1, h2]
  · simp [rowPairs, List.countP_cons, h0, h1, h2]

theorem countP_allPairs_src (rows : List DataType) (s : String) :
    (allPairs rows).countP (fun q => q.1 = s) = rowsThrough s rows := by
  induction rows with
  | nil => rfl
  | cons d rows ih =>
    simp only [rowsThrough, allPairs, List.flatMap_cons, List.countP_append,
      List.countP_cons] at ih ⊢
    rw [ih, countP_rowPairs_src]
    by_cases h : keyAt 0 d = s ∨ keyAt 1 d = s ∨ keyAt 2 d = s <;> simp [h] <;> omega

theorem find?_eq_some_of_mem_nodupKeys (ls : List (String × Link)) (e : String × Link)
    (hnd : (ls.map Prod.fst).Nodup) (he : e ∈ ls) :
    ls.find? (fun x => x.1 = e.1) = some e := by
  induction ls with
  | nil => cases he
  | cons x ls ih =>
    rw [List.map_cons, List.nodup_cons] at hnd
    rcases List.mem_cons.mp he with rfl | he'
    · rw [List.find?_cons_of_pos _ (by simp)]
    · have hx : ¬(x.1 = e.1) := by
        intro hx1
        exact hnd.1 (hx1 ▸ List.mem_map_of_mem Prod.fst he')
      rw [List.find?_cons_of_neg _ (by simpa using hx)]
      exact ih hnd.2 he'

theorem linkVal_of_mem (ls : List (String × Link)) (e : String × Link)
    (hnd : (ls.map Prod.fst).Nodup) (he : e ∈ ls) : linkVal ls e.1 = e.2.value := by
  rw [linkVal, find?_eq_some_of_mem_nodupKeys ls e hnd he]
  rfl

theorem buildGraph_nodes_nodup (rows : List DataType) : (buildGraph rows).1.Nodup := by
  rw [buildGraph_eq_foldl]
  exact nodup_foldl_addNode _ _ (List.nodup_nil)

theorem buildGraph_mem_nodes (rows : List DataType) (s : String) :
    s ∈ (buildGraph rows).1 ↔ ∃ p ∈ allPairs rows, s = p.1 ∨ s = p.2 := by
  rw [buildGraph_eq_foldl]
  rw [mem_foldl_addNode]
  simp

theorem buildGraph_linkKeys_nodup (rows : List DataType) :
    ((buildGraph rows).2.map Prod.fst).Nodup := by
  rw [buildGraph_eq_foldl]
  exact nodupKeys_foldl_bumpLink _ _ (by simp)

theorem buildGraph_wf (rows : List DataType) :
    ∀ e ∈ (buildGraph rows).2,
      e.1 = e.2.source ++ "->" ++ e.2.target ∧ (e.2.source, e.2.target) ∈ allPairs rows := by
  rw [buildGraph_eq_foldl]
  exact wf_foldl_bumpLink (allPairs rows) (allPairs rows) (fun p hp => hp) [] (by simp)

theorem buildGraph_linkVal (rows : List DataType) (k : String) :
    linkVal (buildGraph rows).2 k = (allPairs rows).countP (fun q => linkKey q = k) := by
  rw [buildGraph_eq_foldl]
  have h := linkVal_foldl_bumpLink (allPairs rows) [] k
  simpa [linkVal] using h

theorem buildGraph_outWeight (rows : List DataType)
    (hinj : ∀ q1 ∈ allPairs rows, ∀ q2 ∈ allPairs rows, linkKey q1 = linkKey q2 → q1 = q2)
    (s : String) :
    outWeight (buildGraph rows) s = rowsThrough s rows := by
  rw [outWeight, buildGraph_eq_foldl]
  have h := sumSource_foldl_bumpLink (allPairs rows) hinj (allPairs rows)
    (fun p hp => hp) [] (by simp) (by simp) s
  simpa [countP_allPairs_src] using h

end Sankey

/-! ## Helper lemmas: association lists with unique keys, rollup entries -/

theorem find?_fst_of_mem_nodup {α : Type} (ls : List (String × α)) (e : String × α)
    (hnd : (ls.map Prod.fst).Nodup) (he : e ∈ ls) :
    ls.find? (fun x => x.1 = e.1) = some e := by
  induction ls with
  | nil => cases he
  | cons x ls ih =>
    rw [List.map_cons, List.nodup_cons] at hnd
    rcases List.mem_cons.mp he with rfl | he'
    · rw [List.find?_cons_of_pos _ (by simp)]
    · have hx : ¬(x.1 = e.1) := by
        intro hx1
        exact hnd.1 (hx1 ▸ List.mem_map_of_mem Prod.fst he')
      rw [List.find?_cons_of_neg _ (by simpa using hx)]
      exact ih hnd.2 he'

theorem keys_rollup2 {R : Type} (rows : List R) (k1 k2 : R → String) (m : R → ℚ) :
    (rollup2 rows k1 k2 m).map Prod.fst = keysInOrder k1 rows := by
  rw [rollup2, List.map_map]
  conv_rhs => rw [← List.map_id (keysInOrder k1 rows)]
  apply List.map_congr_left
  intro a _
  rfl

theorem lookup1_of_mem_rollup2 {R : Type} (rows : List R) (k1 k2 : R → String) (m : R → ℚ)
    (e : String × List (String × AggCell)) (he : e ∈ rollup2 rows k1 k2 m) :
    lookup1 (rollup2 rows k1 k2 m) e.1 = some e.2 := by
  have hnd : ((rollup2 rows k1 k2 m).map Prod.fst).Nodup := by
    rw [keys_rollup2]
    exact nodup_keysInOrder k1 rows
  rw [lookup1, find?_fst_of_mem_nodup _ e hnd he]
  rfl

/-! ## Claims -/

/-- C1: counterexample — an income exactly equal to `50000`, the listed upper
bound of the interval labelled "20K - 50K", is NOT bucketed into that
interval: `assignIncomeToRange` uses half-open intervals, so `50000` falls
into "50K - 100K". -/
theorem C1_counterexample :
    Sankey.assignIncomeToRange 50000 = "50K - 100K" ∧
    Sankey.assignIncomeToRange 50000 ≠ "20K - 50K" := by
  constructor
  · decide
  · decide

/-- C1 (amended): both age tables are closed on both ends — an age maps to an
interval's label exactly when `min ≤ v ≤ max`, so a value equal to an
interval's `max` belongs to that interval, not the next (age 27 ↦ "18-27"
and 28 ↦ "28-37" in the `part_000` table). The income table, however, is
half-open (`lo ≤ v < hi`): an income exactly equal to a listed upper bound
belongs to the NEXT interval, not the interval whose max it is. -/
theorem C1_bucket_boundaries (v : ℚ) :
    (∀ iv ∈ ageTable, (BarChart.categorizeAge v = iv.label ↔ iv.min ≤ v ∧ v ≤ iv.max)) ∧
    (∀ iv ∈ ageTableHW2, (BarChartHW2.categorizeAge v = iv.label ↔ iv.min ≤ v ∧ v ≤ iv.max)) ∧
    (∀ iv ∈ incomeTable, (Sankey.assignIncomeToRange v = iv.label ↔ memIncome iv v = true)) :=
  ⟨categorizeAge_mem_iff v, categorizeAgeHW2_mem_iff v, assignIncomeToRange_mem_iff v⟩

theorem C1_witness :
    BarChart.categorizeAge 27 = "18-27" ∧ BarChart.categorizeAge 28 = "28-37" ∧
    Sankey.assignIncomeToRange 20000 = "20K - 50K" :=
  ⟨((C1_bucket_boundaries 27).1 ⟨18, 27, "18-27"⟩ (by decide)).mpr (by norm_num),
   ((C1_bucket_boundaries 28).1 ⟨28, 37, "28-37"⟩ (by decide)).mpr (by norm_num),
   ((C1_bucket_boundaries 20000).2.2 ⟨some 20000, 50000, "20K - 50K"⟩ (by decide)).mpr
     (by decide)⟩

/-- C6: each bucketer returns the label of the first interval of its table
containing the value, and the designated fallback when no interval matches:
"Unknown" for ages, the open-ended "> 200K" for incomes. -/
theorem C6_first_match_fallback (v : ℚ) :
    BarChart.categorizeAge v = bucketClosed ageTable "Unknown" v ∧
    Sankey.assignIncomeToRange v = bucketIncome incomeTable "> 200K" v ∧
    ((∀ iv ∈ ageTable, ¬(iv.min ≤ v ∧ v ≤ iv.max)) → BarChart.categorizeAge v = "Unknown") ∧
    ((∀ iv ∈ incomeTable, ¬(memIncome iv v = true)) →
      Sankey.assignIncomeToRange v = "> 200K") := by
  refine ⟨categorizeAge_eq_bucketClosed v, assignIncomeToRange_eq_bucketIncome v, ?_, ?_⟩
  · intro h
    rw [categorizeAge_eq_bucketClosed, bucketClosed,
      List.find?_eq_none.mpr (by simpa using h)]
    rfl
  · intro h
    rw [assignIncomeToRange_eq_bucketIncome, bucketIncome,
      List.find?_eq_none.mpr (by simpa using h)]
    rfl

theorem C6_witness :
    BarChart.categorizeAge 99 = "Unknown" ∧ Sankey.assignIncomeToRange 250000 = "> 200K" :=
  ⟨(C6_first_match_fallback 99).2.2.1 (by decide),
   (C6_first_match_fallback 250000).2.2.2 (by decide)⟩

/-- C4: conservation — for any row type and any pair of key functions, the
cells of the two-level aggregate sum to the total measure over all rows, and
their counts sum to the number of rows. -/
theorem C4_aggregate_conservation {R : Type} (rows : List R) (k1 k2 : R → String)
    (m : R → ℚ) :
    totalSum (rollup2 rows k1 k2 m) = (rows.map m).sum ∧
    totalCount (rollup2 rows k1 k2 m) = rows.length :=
  ⟨totalSum_rollup2 rows k1 k2 m, totalCount_rollup2 rows k1 k2 m⟩

/-- C9: on an empty row sequence the aggregate is the empty mapping (both as
the generic `rollup2` and as the BarChartOverview instantiation), and the
graph builder returns empty node and edge collections. -/
theorem C9_empty_inputs :
    (∀ (R : Type) (k1 k2 : R → String) (m : R → ℚ), rollup2 [] k1 k2 m = []) ∧
    BarChart.aggregatedData [] = [] ∧
    Sankey.buildGraph [] = ([], []) :=
  ⟨fun _ _ _ _ => rfl, rfl, rfl⟩

/-- C8: the two-level aggregate is invariant under row permutation — for any
permutation of the input rows, every cell lookup of the two aggregates
agrees (same `{sum, count}` per cell, same absent cells). -/
theorem C8_perm_invariant {R : Type} (rows rows' : List R) (hperm : rows.Perm rows')
    (k1 k2 : R → String) (m : R → ℚ) (a b : String) :
    lookup2 (rollup2 rows k1 k2 m) a b = lookup2 (rollup2 rows' k1 k2 m) a b := by
  rw [lookup2_rollup2, lookup2_rollup2]
  have hp2 : ((rows.filter (fun r => k1 r = a)).filter (fun r => k2 r = b)).Perm
      ((rows'.filter (fun r => k1 r = a)).filter (fun r => k2 r = b)) :=
    (hperm.filter _).filter _
  by_cases hg : ((rows.filter (fun r => k1 r = a)).filter (fun r => k2 r = b)) = []
  · have hg2 : ((rows'.filter (fun r => k1 r = a)).filter (fun r => k2 r = b)) = [] := by
      have h := hp2
      rw [hg] at h
      exact h.symm.eq_nil
    rw [hg, hg2]
  · have hg2 : ¬((rows'.filter (fun r => k1 r = a)).filter (fun r => k2 r = b)) = [] := by
      intro h
      apply hg
      have h2 := hp2
      rw [h] at h2
      exact h2.eq_nil
    rw [if_neg (by simpa [List.isEmpty_iff] using hg),
      if_neg (by simpa [List.isEmpty_iff] using hg2)]
    have hsum := (hp2.map m).sum_eq
    have hlen := hp2.length_eq
    rw [Option.some_inj]
    rw [AggCell.mk.injEq]
    exact ⟨hsum, hlen⟩

theorem C8_witness :
    lookup2 (rollup2 [(⟨"28-37", some 100, "Low"⟩ : BarChart.DataType),
        ⟨"38-47", some 200, "High"⟩] (fun d => d.Age) (fun d => d.RiskRating)
        (fun d => d.Income.getD 0)) "28-37" "Low"
      = lookup2 (rollup2 [(⟨"38-47", some 200, "High"⟩ : BarChart.DataType),
        ⟨"28-37", some 100, "Low"⟩] (fun d => d.Age) (fun d => d.RiskRating)
        (fun d => d.Income.getD 0)) "28-37" "Low" :=
  C8_perm_invariant _ _ (List.Perm.swap _ _ _) _ _ _ "28-37" "Low"

/-- C10: every cell present in a two-level aggregate comes from at least one
contributing row, so its `count` is at least 1 and the mean
`totalIncome / count` never divides by zero; only absent cells need the
division guard. -/
theorem C10_present_cells_count_pos {R : Type} (rows : List R) (k1 k2 : R → String)
    (m : R → ℚ) (a b : String) (cell : AggCell)
    (h : lookup2 (rollup2 rows k1 k2 m) a b = some cell) :
    1 ≤ cell.count ∧ (jsDiv cell.totalIncome (cell.count : ℚ)).isSome = true := by
  rw [lookup2_rollup2] at h
  by_cases hemp : ((rows.filter (fun r => k1 r = a)).filter (fun r => k2 r = b)).isEmpty
  · rw [if_pos hemp] at h
    cases h
  · rw [if_neg hemp] at h
    injection h with h
    subst h
    have hlen : ((rows.filter (fun r => k1 r = a)).filter (fun r => k2 r = b)).length ≠ 0 := by
      rw [List.isEmpty_iff] at hemp
      rw [Ne, List.length_eq_zero]
      exact hemp
    constructor
    · simpa [Nat.one_le_iff_ne_zero] using hlen
    · rw [jsDiv, if_neg (by exact_mod_cast hlen)]
      rfl

theorem C10_witness :
    1 ≤ (AggCell.mk 100 1).count ∧
    (jsDiv (AggCell.mk 100 1).totalIncome ((AggCell.mk 100 1).count : ℚ)).isSome = true :=
  C10_present_cells_count_pos [(⟨"28-37", some 100, "Low"⟩ : BarChart.DataType)]
    (fun d => d.Age) (fun d => d.RiskRating) (fun d => d.Income.getD 0)
    "28-37" "Low" ⟨100, 1⟩ (by rw [lookup2_rollup2]; simp)

/-- C7: a category that occurs in no input row does not appear as a key of
the aggregate's output mapping; and in `stackedData` every (age, risk) cell
whose group is absent from the aggregate is the literal `some 0`, never the
invalid number `none` (NaN). -/
theorem C7_absent_category (rows : List BarChart.DataType) (c : String) :
    ((∀ r ∈ rows, r.Age ≠ c) → lookup1 (BarChart.aggregatedData rows) c = none) ∧
    (∀ inner, (c, inner) ∈ BarChart.stackedData rows →
      ∀ risk v, (risk, v) ∈ inner →
        lookup2 (BarChart.aggregatedData rows) c risk = none → v = some 0) := by
  constructor
  · intro h
    rw [BarChart.aggregatedData, rollup2, lookup1_keyed, if_neg]
    rw [mem_keysInOrder]
    rintro ⟨r, hr, hrc⟩
    exact h r hr hrc
  · intro inner hmem risk v hv hnone
    rw [BarChart.stackedData, List.mem_map] at hmem
    obtain ⟨e, he, heq⟩ := hmem
    rw [Prod.mk.injEq] at heq
    obtain ⟨hc, hinner⟩ := heq
    rw [← hinner] at hv
    rw [List.mem_map] at hv
    obtain ⟨risk0, _, hveq⟩ := hv
    rw [Prod.mk.injEq] at hveq
    obtain ⟨hrisk, hvv⟩ := hveq
    have hlookup : lookup1 (BarChart.aggregatedData rows) c = some e.2 := by
      rw [← hc]
      exact lookup1_of_mem_rollup2 rows _ _ _ e he
    rw [lookup2, hlookup, Option.some_bind] at hnone
    subst hrisk
    rw [← hvv, hnone]

theorem C7_witness :
    lookup1 (BarChart.aggregatedData [⟨"28-37", some 100, "Low"⟩]) "58-69" = none :=
  (C7_absent_category [⟨"28-37", some 100, "Low"⟩] "58-69").1 (by decide)

/-- C2: counterexample — the BarChartOverview loader does not drop a row
whose Income fails numeric parse: the row reaches the downstream dataset,
with the unparsed income kept as NaN. -/
theorem C2_counterexample :
    BarChart.loadedData [⟨some 30, none, some 700, some (3 / 10), "Low", "Ed", "Good"⟩]
      = [⟨"28-37", none, "Low"⟩] := by
  decide

/-- C2 (amended): the HexbinPlot and Sankey loaders silently drop a row
missing a required field or failing numeric parse, and every record they
deliver downstream has passed the numeric-parseability, range and
non-emptiness checks for the fields that component uses; the
BarChartOverview loader, however, performs no validation: it delivers
exactly one record per raw row, bucketing an unparseable age into "Unknown"
and keeping an unparseable income as NaN. -/
theorem C2_loader_validation (raws : List RawRow) :
    (∀ r ∈ Hexbin.validData raws,
      600 ≤ r.CreditScore ∧ r.CreditScore ≤ 800 ∧ 0 < r.Income ∧ r.RiskRating ≠ "") ∧
    (∀ r ∈ Sankey.validData raws,
      r.EducationLevel ≠ "" ∧ r.PaymentHistory ≠ "" ∧ r.RiskRating ≠ "" ∧
      ∃ x : ℚ, r.Income = Sankey.assignIncomeToRange x) ∧
    (BarChart.loadedData raws).length = raws.length := by
  refine ⟨?_, ?_, by simp [BarChart.loadedData]⟩
  · intro r hr
    rw [Hexbin.validData, List.mem_filterMap] at hr
    obtain ⟨d, _, hd⟩ := hr
    obtain ⟨ag, inc, cs, dti, rr, el, ph⟩ := d
    rcases cs with _ | cs <;> rcases inc with _ | inc <;> rcases dti with _ | dti <;>
      rcases ag with _ | ag <;> simp only [Hexbin.load] at hd <;>
      try exact Option.noConfusion hd
    split_ifs at hd with hP
    · injection hd with hd
      subst hd
      exact ⟨hP.1, hP.2.1, hP.2.2.1, hP.2.2.2⟩
  · intro r hr
    rw [Sankey.validData, List.mem_filterMap] at hr
    obtain ⟨d, _, hd⟩ := hr
    obtain ⟨ag, inc, cs, dti, rr, el, ph⟩ := d
    rcases inc with _ | inc <;> simp only [Sankey.load] at hd <;>
      try exact Option.noConfusion hd
    split_ifs at hd with hP
    · injection hd with hd
      subst hd
      exact ⟨hP.1, hP.2.1, hP.2.2, inc, rfl⟩

theorem C2_witness :
    (600 : ℚ) ≤ 700 ∧ (700 : ℚ) ≤ 800 ∧ (0 : ℚ) < 50000 ∧ ("Low" : String) ≠ "" := by
  have h := (C2_loader_validation
      [⟨some 30, some 50000, some 700, some 3, "Low", "Ed", "Good"⟩]).1
    ⟨700, 50000, "Low", 3, 30⟩ (by decide)
  exact ⟨h.1, h.2.1, h.2.2.1, h.2.2.2⟩

/-- C3: counterexample — edge identity is the concatenated string key, not
the ordered pair of node keys: with a category value containing "->", the
first adjacent pair of the second row collides under concatenation with the
first pair of the first row; its occurrence increments the first row's edge,
and no edge carrying the second row's (source, target) pair exists, even
though that pair occurs. -/
theorem C3_counterexample :
    (("EducationLevel_a->PaymentHistory_b", "PaymentHistory_c")
        ∈ Sankey.allPairs [⟨"a", "b->PaymentHistory_c", "i", "r"⟩,
                           ⟨"a->PaymentHistory_b", "c", "i", "r"⟩]) ∧
    ((Sankey.buildGraph [⟨"a", "b->PaymentHistory_c", "i", "r"⟩,
                         ⟨"a->PaymentHistory_b", "c", "i", "r"⟩]).2.all
      (fun e => !(decide (e.2.source = "EducationLevel_a->PaymentHistory_b")
          && decide (e.2.target = "PaymentHistory_c")))) = true := by
  decide

/-- C3 (amended): node identity is the composite key `dimension + "_" +
value` — the node list is duplicate-free and contains every key occurring in
a row, so two rows producing the same (dimension, value) pair share one
node. Edge identity is the CONCATENATED key `source + "->" + target`: link
keys are unique, each stored key is the concatenation of the stored source
and target, and each link's weight counts exactly the adjacent-pair
occurrences whose concatenated key matches — repeated occurrences of the
same pair therefore increment one single edge instead of duplicating it,
but two distinct ordered pairs whose concatenations coincide (possible only
when a category value contains "->") are merged into one edge. -/
theorem C3_graph_identity (rows : List Sankey.DataType) :
    (Sankey.buildGraph rows).1.Nodup ∧
    (∀ d ∈ rows, ∀ i : Fin 4, Sankey.keyAt i d ∈ (Sankey.buildGraph rows).1) ∧
    ((Sankey.buildGraph rows).2.map Prod.fst).Nodup ∧
    (∀ e ∈ (Sankey.buildGraph rows).2,
      e.1 = e.2.source ++ "->" ++ e.2.target ∧
      e.2.value = (Sankey.allPairs rows).countP (fun q => Sankey.linkKey q = e.1)) := by
  refine ⟨Sankey.buildGraph_nodes_nodup rows, ?_, Sankey.buildGraph_linkKeys_nodup rows, ?_⟩
  · intro d hd i
    rw [Sankey.buildGraph_mem_nodes]
    have hmem : ∀ p ∈ Sankey.rowPairs d, p ∈ Sankey.allPairs rows := by
      intro p hp
      rw [Sankey.allPairs, List.mem_flatMap]
      exact ⟨d, hd, hp⟩
    fin_cases i
    · exact ⟨(Sankey.keyAt 0 d, Sankey.keyAt 1 d),
        hmem _ (by simp [Sankey.rowPairs]), Or.inl rfl⟩
    · exact ⟨(Sankey.keyAt 0 d, Sankey.keyAt 1 d),
        hmem _ (by simp [Sankey.rowPairs]), Or.inr rfl⟩
    · exact ⟨(Sankey.keyAt 1 d, Sankey.keyAt 2 d),
        hmem _ (by simp [Sankey.rowPairs]), Or.inr rfl⟩
    · exact ⟨(Sankey.keyAt 2 d, Sankey.keyAt 3 d),
        hmem _ (by simp [Sankey.rowPairs]), Or.inr rfl⟩
  · intro e he
    refine ⟨(Sankey.buildGraph_wf rows e he).1, ?_⟩
    have h1 : Sankey.linkVal (Sankey.buildGraph rows).2 e.1 = e.2.value :=
      Sankey.linkVal_of_mem _ e (Sankey.buildGraph_linkKeys_nodup rows) he
    rw [← h1, Sankey.buildGraph_linkVal]

theorem C3_witness :
    Sankey.keyAt 0 ⟨"x", "y", "i", "r"⟩ ∈ (Sankey.buildGraph [⟨"x", "y", "i", "r"⟩]).1 ∧
    (Sankey.buildGraph [(⟨"x", "y", "i", "r"⟩ : Sankey.DataType)]).1.Nodup :=
  ⟨(C3_graph_identity [⟨"x", "y", "i", "r"⟩]).2.1 _ (by decide) 0,
   (C3_graph_identity [⟨"x", "y", "i", "r"⟩]).1⟩

/-- C5: counterexample — with a category value containing "->", the node of
the second row's first dimension is a non-last-dimension node through which
one row passes, yet the colliding concatenated link key credited that
occurrence to the first row's edge, so the edge weights out of the node sum
to 0, not 1. -/
theorem C5_counterexample :
    ("EducationLevel_a->PaymentHistory_b"
        ∈ (Sankey.buildGraph [⟨"a", "b->PaymentHistory_c", "i", "r"⟩,
                              ⟨"a->PaymentHistory_b", "c", "i", "r"⟩]).1) ∧
    Sankey.outWeight (Sankey.buildGraph [⟨"a", "b->PaymentHistory_c", "i", "r"⟩,
        ⟨"a->PaymentHistory_b", "c", "i", "r"⟩]) "EducationLevel_a->PaymentHistory_b" = 0 ∧
    Sankey.rowsThrough "EducationLevel_a->PaymentHistory_b"
        [⟨"a", "b->PaymentHistory_c", "i", "r"⟩, ⟨"a->PaymentHistory_b", "c", "i", "r"⟩]
      = 1 := by
  decide

/-- C5 (amended): provided no two distinct adjacent-pair occurrences share
the same concatenated link key (in particular whenever no category value
contains "->"), the edge weights summed per source node equal the number of
rows passing through that node at one of the non-last dimensions; a node
key occurring only at the last dimension is the source of no edge and both
sides are 0. -/
theorem C5_outflow_conservation (rows : List Sankey.DataType)
    (hinj : ∀ q1 ∈ Sankey.allPairs rows, ∀ q2 ∈ Sankey.allPairs rows,
      Sankey.linkKey q1 = Sankey.linkKey q2 → q1 = q2) (s : String) :
    Sankey.outWeight (Sankey.buildGraph rows) s = Sankey.rowsThrough s rows :=
  Sankey.buildGraph_outWeight rows hinj s

theorem C5_witness :
    Sankey.outWeight (Sankey.buildGraph
        [(⟨"x", "y", "i", "r"⟩ : Sankey.DataType), ⟨"x", "y2", "i", "r"⟩]) "EducationLevel_x"
      = Sankey.rowsThrough "EducationLevel_x"
          [(⟨"x", "y", "i", "r"⟩ : Sankey.DataType), ⟨"x", "y2", "i", "r"⟩] :=
  C5_outflow_conservation _ (by decide) "EducationLevel_x"
